import Mathlib

/-!
Verification of the findatapy `Calculations` time-series engine
(`findatapy/timeseries/calculations.py`).

Tables are shallowly embedded: a merger-level `Table` is a timestamp set
(`Finset ℕ`), a column-name list, and a cell function; a single column of an
aligned frame is a `List (Option ℚ)` where `none` is the missing-value marker
(pandas NaN), which propagates through arithmetic.
-/

namespace Findatapy

/-- A time-indexed columnar table: set of timestamps, ordered column names,
and a cell lookup.  Cells outside `index` are treated as missing by `cellAt`. -/
@[ext] structure Table where
  index : Finset ℕ
  cols : List String
  cell : ℕ → String → Option ℚ

/-- Cell lookup that returns the missing marker outside the table's index. -/
def Table.cellAt (T : Table) (t : ℕ) (c : String) : Option ℚ :=
  if t ∈ T.index then T.cell t c else none

/-- Pairwise pandas outer join `ldf.join(rdf, how="outer")`: index is the union
of indices, columns are left's then right's, and a cell comes from the left
table when the column is a left column, otherwise from the right table. -/
def joinOuter (l r : Table) : Table where
  index := l.index ∪ r.index
  cols := l.cols ++ r.cols
  cell := fun t c => if c ∈ l.cols then l.cellAt t c else r.cellAt t c

/-- `Calculations.functional_outer_join`: `functools.reduce` of pairwise outer
joins, left to right.  `reduce` with no initializer raises `TypeError` on an
empty sequence, modelled as `Except.error` — unlike
`iterative_outer_join_second`, which genuinely returns `None` there. -/
def functional_outer_join : List Table → Except String Table
  | [] => Except.error "TypeError: reduce of empty sequence"
  | h :: t => Except.ok (t.foldl joinOuter h)

/-- One round of `iterative_outer_join_second`'s loop: `join_aux` pairs up
adjacent tables, carrying an unpaired last table through unchanged. -/
def pairUp : List Table → List Table
  | [] => []
  | [a] => [a]
  | a :: b :: rest => joinOuter a b :: pairUp rest

theorem pairUp_length_le (l : List Table) : (pairUp l).length ≤ l.length := by
  have h : ∀ n (l : List Table), l.length ≤ n → (pairUp l).length ≤ l.length := by
    intro n
    induction n with
    | zero =>
      intro l hl
      match l with
      | [] => simp [pairUp]
    | succ n ih =>
      intro l hl
      match l with
      | [] => simp [pairUp]
      | [a] => simp [pairUp]
      | a :: b :: rest =>
        simp only [pairUp, List.length_cons]
        have := ih rest (by simp at hl; omega)
        omega
  exact h l.length l le_rfl

theorem pairUp_cons_cons_length_lt (a b : Table) (rest : List Table) :
    (pairUp (a :: b :: rest)).length < (a :: b :: rest).length := by
  simp only [pairUp, List.length_cons]
  have := pairUp_length_le rest
  omega

/-- `Calculations.iterative_outer_join_second`: repeatedly pair up adjacent
tables and outer-join each pair until one table remains; `None` on empty
input, identity on a single table. -/
def iterative_outer_join_second (l : List Table) : Option Table :=
  match l with
  | [] => none
  | [a] => some a
  | a :: b :: rest => iterative_outer_join_second (pairUp (a :: b :: rest))
termination_by l.length
decreasing_by
  exact pairUp_cons_cons_length_lt a b rest

/-! ### Column model for the signal / return engine

A single column of an aligned frame is a `List (Option ℚ)`; `none` is the
missing marker (NaN).  All pandas element-wise operations used by
`calculations.py` are modelled cell-wise, with `none` propagating. -/

/-- One column of an aligned time-indexed frame; `none` is NaN. -/
abbrev Column := List (Option ℚ)

/-- Element-wise binary arithmetic on cells: NaN propagates. -/
def cellOp (f : ℚ → ℚ → ℚ) : Option ℚ → Option ℚ → Option ℚ
  | some u, some v => some (f u v)
  | _, _ => none

/-- Element-wise combination of two aligned columns (pandas binary arithmetic,
truncating at the shorter operand, which never happens on aligned frames). -/
def map2 (f : ℚ → ℚ → ℚ) : Column → Column → Column
  | [], _ => []
  | _, [] => []
  | x :: xs, y :: ys => cellOp f x y :: map2 f xs ys

/-- `df.shift(k)` for `k ≥ 0`: cell `t` becomes the cell `t - k`, the first
`k` cells become NaN, and the length (index) is unchanged. -/
def shiftCol (k : ℕ) (xs : Column) : Column :=
  (List.replicate k none ++ xs).take xs.length

/-- `df.shift(-1)`: cell `t` becomes cell `t+1`, last cell becomes NaN. -/
def shiftNegOne (xs : Column) : Column :=
  xs.drop 1 ++ List.replicate (min 1 xs.length) none

/-- `df.abs()` cell-wise. -/
def absCol (xs : Column) : Column := xs.map (Option.map (fun q => |q|))

/-- `df.multiply(c)` cell-wise. -/
def scaleCol (c : ℚ) (xs : Column) : Column := xs.map (Option.map (fun q => q * c))

/-- `Calculations.calculate_signal_tc`:
`(signal.shift(period_shift) - signal).abs().multiply(tc)`. -/
def calculate_signal_tc (s : Column) (tc : ℚ) (k : ℕ) : Column :=
  scaleCol tc (absCol (map2 (· - ·) (shiftCol k s) s))

/-- `Calculations.calculate_signal_returns`:
`signal.shift(period_shift) * returns`. -/
def calculate_signal_returns (s r : Column) (k : ℕ) : Column :=
  map2 (· * ·) (shiftCol k s) r

/-- `Calculations.calculate_signal_returns_with_tc`:
`signal.shift(period_shift) * returns - tc_costs`. -/
def calculate_signal_returns_with_tc (s r : Column) (tc : ℚ) (k : ℕ) : Column :=
  map2 (· - ·) (map2 (· * ·) (shiftCol k s) r) (calculate_signal_tc s tc k)

/-- `Calculations.calculate_trade_no`: `trades = abs(signal - signal.shift(-1))`
then `trades[trades > 0].count()` — the number of rows whose (defined)
absolute signal change to the next row is positive. -/
def calculate_trade_no (s : Column) : ℕ :=
  (absCol (map2 (· - ·) s (shiftNegOne s))).countP fun o =>
    match o with
    | some x => decide (0 < x)
    | none => false

/-- pandas `Series.cumsum()` (skipna): NaN cells stay NaN, the running sum
skips them. -/
def cumsumFrom (acc : ℚ) : Column → Column
  | [] => []
  | none :: t => none :: cumsumFrom acc t
  | some x :: t => some (acc + x) :: cumsumFrom (acc + x) t

/-- `reset_points.cumsum()` starting from 0. -/
def cumsumCol (xs : Column) : Column := cumsumFrom 0 xs

/-- Reset points as computed by `calculate_cum_rets_trades` /
`calculate_final_trade_duration`:
`pushed = signal.shift(1)`, `reset = (pushed - pushed.shift(1)).abs()`. -/
def resetPoints (s : Column) : Column :=
  absCol (map2 (· - ·) (shiftCol 1 s) (shiftCol 1 (shiftCol 1 s)))

/-- Segment identifiers: cumulative sum of the reset-point column. -/
def segmentIds (s : Column) : Column := cumsumCol (resetPoints s)

/-- pandas `groupby(keys).cumsum()` on a value column: rows with a NaN key or
NaN value yield NaN; each key accumulates its own running sum in row order. -/
def groupCumsumFrom (acc : ℚ → ℚ) : Column → Column → Column
  | [], _ => []
  | _, [] => []
  | none :: ks, _ :: vs => none :: groupCumsumFrom acc ks vs
  | some _ :: ks, none :: vs => none :: groupCumsumFrom acc ks vs
  | some k :: ks, some v :: vs =>
      some (acc k + v) ::
        groupCumsumFrom (fun q => if q = k then acc k + v else acc q) ks vs

/-- `groupby(keys).cumsum()` with all per-key sums starting at 0. -/
def groupCumsum (keys vals : Column) : Column :=
  groupCumsumFrom (fun _ => 0) keys vals

/-- `Calculations.calculate_cum_rets_trades`: its line
`old_cols = strategy_returns_data_frame.columnsii` accesses an attribute that
does not exist on a DataFrame (a typo for `.columns`), so for any ordinary
input the function raises `AttributeError` before computing anything; the
failure is modelled as `Except.error`. -/
def calculate_cum_rets_trades (_s _r : Column) : Except String Column :=
  Except.error "AttributeError: columnsii"

/-- `Calculations.calculate_trade_duration`: the whole body after the
docstring is commented out, so the function always returns `None`. -/
def calculate_trade_duration (_s : Column) : Option Column :=
  none

/-- `Calculations.calculate_final_trade_duration`: a frame of ones grouped by
the cumulative reset-point ids, cumulatively summed per group. -/
def calculate_final_trade_duration (s : Column) : Column :=
  groupCumsum (segmentIds s) (List.replicate s.length (some 1))

/-- pandas `Series.cumprod()` (skipna). -/
def cumprodFrom (acc : ℚ) : Column → Column
  | [] => []
  | none :: t => none :: cumprodFrom acc t
  | some x :: t => some (acc * x) :: cumprodFrom (acc * x) t

/-- `df.loc[df[c].first_valid_index(), c] = 100`: overwrite the first
non-missing cell with 100. -/
def setFirstValid100 : Column → Column
  | [] => []
  | none :: t => none :: setFirstValid100 t
  | some _ :: t => some 100 :: t

/-- `Calculations.create_mult_index`:
`df = 100.0 * (1.0 + df_rets).cumprod()` and then the first valid cell of
each column is overwritten with 100. -/
def create_mult_index (r : Column) : Column :=
  setFirstValid100 ((cumprodFrom 1 (r.map (Option.map (fun q => 1 + q)))).map
    (Option.map (fun q => 100 * q)))

/-- Index of the first non-missing cell, pandas `first_valid_index()`. -/
def firstValidIdx : Column → Option ℕ
  | [] => none
  | none :: t => (firstValidIdx t).map (· + 1)
  | some _ :: _ => some 0

/-- pandas `ffill` with an explicit carry. -/
def ffillFrom (carry : Option ℚ) : Column → Column
  | [] => []
  | none :: t => carry :: ffillFrom carry t
  | some x :: t => some x :: ffillFrom (some x) t

/-- pandas `DataFrame.ffill()`. -/
def ffillCol (xs : Column) : Column := ffillFrom none xs

/-- One cell of the stop trigger `(cum_rets_trades > take_profit) |
(cum_rets_trades < stop_loss)`; comparisons against NaN are false. -/
def stopCell (sl tp : ℚ) : Option ℚ → Bool
  | some y => decide (tp < y) || decide (y < sl)
  | none => false

/-- The stop trigger column. -/
def stopInd (cum : Column) (sl tp : ℚ) : List Bool :=
  cum.map (stopCell sl tp)

/-- Masked in-place assignment `df[mask] = v`. -/
def maskSetVal (v : ℚ) (xs : Column) (m : List Bool) : Column :=
  List.zipWith (fun x b => if b then some v else x) xs m

/-- Masked in-place assignment `df[reset_points == 0] = nan`; a NaN reset
cell compares unequal to 0, so the row is kept. -/
def maskNaNWhereZero (xs reset : Column) : Column :=
  List.zipWith
    (fun x ro =>
      match ro with
      | some z => if z = 0 then none else x
      | none => x) xs reset

/-- Reset points as computed inside `calculate_risk_stop_signals`, where
`signal_data_frame_pushed = signal_data_frame` (the shift is commented out):
`(signal - signal.shift(1)).abs()`. -/
def resetPointsNoShift (s : Column) : Column :=
  absCol (map2 (· - ·) s (shiftCol 1 s))

/-- The state of the caller's signal frame after `calculate_risk_stop_signals`
returns: the two masked assignments `signal[ind] = 0` and
`signal[reset_points == 0] = nan` write through to the input object
(`ffill` then builds a fresh frame). -/
def riskStopSignalAfter (s cum : Column) (sl tp : ℚ) : Column :=
  let reset := resetPointsNoShift s
  let ind := stopInd cum sl tp
  let s1 := maskSetVal 0 s ind
  let reset2 := maskSetVal 1 reset ind
  maskNaNWhereZero s1 reset2

/-- `Calculations.calculate_risk_stop_signals`: trigger mask from the
cumulative per-trade returns, zero out triggered cells, add them as reset
points, blank non-reset rows and forward-fill. -/
def calculate_risk_stop_signals (s cum : Column) (sl tp : ℚ) : Column :=
  ffillCol (riskStopSignalAfter s cum sl tp)

/-- Sum of the defined cells of a column. -/
def sumDef : Column → ℚ
  | [] => 0
  | none :: t => sumDef t
  | some x :: t => x + sumDef t

/-- Product of the defined cells of a column. -/
def prodDef : Column → ℚ
  | [] => 1
  | none :: t => prodDef t
  | some x :: t => x * prodDef t

/-- Every defined cell is nonnegative. -/
def nonnegCol (xs : Column) : Prop := ∀ q : ℚ, some q ∈ xs → 0 ≤ q

/-- No missing cells. -/
def noneFree (xs : Column) : Prop := ∀ x ∈ xs, x ≠ none

/-! ### Theorems -/

theorem joinOuter_assoc (a b c : Table) :
    joinOuter (joinOuter a b) c = joinOuter a (joinOuter b c) := by
  unfold joinOuter Table.cellAt
  ext t s x
  · simp [Finset.union_assoc]
  · simp [List.append_assoc]
  · simp only [List.mem_append, Finset.mem_union]
    by_cases ha : s ∈ a.cols <;> by_cases hb : s ∈ b.cols <;>
      by_cases hta : t ∈ a.index <;> by_cases htb : t ∈ b.index <;>
      simp [ha, hb, hta, htb]

theorem foldl_pairUp (l : List Table) :
    ∀ x : Table, (pairUp l).foldl joinOuter x = l.foldl joinOuter x := by
  have h : ∀ n (l : List Table), l.length ≤ n →
      ∀ x : Table, (pairUp l).foldl joinOuter x = l.foldl joinOuter x := by
    intro n
    induction n with
    | zero =>
      intro l hl x
      match l with
      | [] => rfl
    | succ n ih =>
      intro l hl x
      match l with
      | [] => rfl
      | [a] => rfl
      | a :: b :: rest =>
        simp only [pairUp, List.foldl_cons]
        rw [ih rest (by simp at hl; omega), joinOuter_assoc]
  exact h l.length l le_rfl

theorem iterative_eq_functional_cons (a : Table) (rest : List Table) :
    iterative_outer_join_second (a :: rest) = some (rest.foldl joinOuter a) := by
  have h : ∀ n (a : Table) (rest : List Table), rest.length + 1 ≤ n →
      iterative_outer_join_second (a :: rest) = some (rest.foldl joinOuter a) := by
    intro n
    induction n with
    | zero => intro a rest hl; omega
    | succ n ih =>
      intro a rest hl
      match rest with
      | [] => rw [iterative_outer_join_second]; rfl
      | b :: rest =>
        rw [iterative_outer_join_second]
        have hlen : (pairUp rest).length + 1 ≤ n := by
          have h1 := pairUp_cons_cons_length_lt a b rest
          have h2 := pairUp_length_le rest
          simp only [pairUp, List.length_cons] at *
          omega
        rw [show pairUp (a :: b :: rest) = joinOuter a b :: pairUp rest from rfl]
        rw [ih (joinOuter a b) (pairUp rest) hlen]
        rw [foldl_pairUp rest]
        rfl
  exact h (rest.length + 1) a rest le_rfl

theorem map2_getElem? (f : ℚ → ℚ → ℚ) :
    ∀ (a b : Column) (t : ℕ),
      (map2 f a b)[t]? =
        match a[t]?, b[t]? with
        | some x, some y => some (cellOp f x y)
        | _, _ => none := by
  intro a
  induction a with
  | nil => intro b t; cases b <;> simp [map2]
  | cons x xs ih =>
    intro b t
    cases b with
    | nil => simp [map2]
    | cons y ys =>
      cases t with
      | zero => simp [map2]
      | succ n => simpa [map2] using ih ys n

theorem map2_length (f : ℚ → ℚ → ℚ) :
    ∀ a b : Column, (map2 f a b).length = min a.length b.length := by
  intro a
  induction a with
  | nil => intro b; cases b <;> simp [map2]
  | cons x xs ih =>
    intro b
    cases b with
    | nil => simp [map2]
    | cons y ys => simp [map2, ih]; omega

theorem shiftCol_length (k : ℕ) (xs : Column) : (shiftCol k xs).length = xs.length := by
  simp [shiftCol]

theorem shiftCol_getElem? (k : ℕ) (xs : Column) (t : ℕ) :
    (shiftCol k xs)[t]? =
      if t < xs.length then (if t < k then some none else xs[t - k]?) else none := by
  unfold shiftCol
  by_cases h : t < xs.length
  · rw [List.getElem?_take_of_lt h]
    by_cases hk : t < k
    · rw [List.getElem?_append_left (by simpa using hk)]
      simp [List.getElem?_replicate, hk, h]
    · rw [List.getElem?_append_right (by simpa using Nat.le_of_not_lt hk)]
      simp [hk, h]
  · rw [List.getElem?_eq_none (by simp; omega)]
    simp [h]

theorem absCol_getElem? (xs : Column) (t : ℕ) :
    (absCol xs)[t]? = (xs[t]?).map (Option.map (fun q => |q|)) := by
  simp [absCol, List.getElem?_map]

theorem scaleCol_getElem? (c : ℚ) (xs : Column) (t : ℕ) :
    (scaleCol c xs)[t]? = (xs[t]?).map (Option.map (fun q => q * c)) := by
  simp [scaleCol, List.getElem?_map]

theorem getElem?_some_lt_length {α : Type} {l : List α} {t : ℕ} {x : α}
    (h : l[t]? = some x) : t < l.length := by
  by_contra hc
  rw [List.getElem?_eq_none (Nat.le_of_not_lt hc)] at h
  exact Option.noConfusion h

/-- C1 counterexample: the two merge strategies diverge at the empty list:
`functional_outer_join` raises (`functools.reduce` of an empty sequence with
no initializer is a `TypeError`) while `iterative_outer_join_second` returns
a graceful `None`, so "fold equals divide-and-conquer for every list of
tables" fails there. -/
theorem merge_empty_divergence_counterexample :
    functional_outer_join [] =
      Except.error "TypeError: reduce of empty sequence" ∧
    iterative_outer_join_second [] = none ∧
    ∀ T : Table, functional_outer_join [] ≠ Except.ok T := by
  refine ⟨rfl, by rw [iterative_outer_join_second], fun T h => ?_⟩
  exact Except.noConfusion h

/-- C1 (amended): for every nonempty list of tables the sequential
left-to-right fold of pairwise outer joins and the divide-and-conquer rounds
that pair adjacent tables (carrying an unpaired last table through) succeed
and produce the same single table; on the empty list the strategies diverge
(the fold raises from `reduce`, the iterative version returns `None`); and
`merge([t1, t2, t3])` equals `merge([merge([t1,t2]), t3])` equals
`merge([t1, merge([t2,t3])])`. -/
theorem merge_strategies_equivalent :
    (∀ (a : Table) (rest : List Table), ∃ T : Table,
      functional_outer_join (a :: rest) = Except.ok T ∧
      iterative_outer_join_second (a :: rest) = some T) ∧
    (∀ t1 t2 t3 : Table,
      functional_outer_join [t1, t2, t3] =
        (functional_outer_join [t1, t2]).bind (fun x => functional_outer_join [x, t3]) ∧
      functional_outer_join [t1, t2, t3] =
        (functional_outer_join [t2, t3]).bind (fun x => functional_outer_join [t1, x])) := by
  refine ⟨fun a rest => ⟨rest.foldl joinOuter a, rfl, iterative_eq_functional_cons a rest⟩,
    fun t1 t2 t3 => ⟨?_, ?_⟩⟩
  · simp [functional_outer_join, Except.bind]
  · simp [functional_outer_join, Except.bind, joinOuter_assoc]

/-- C2 counterexample: with signal `[0,1,1]`, returns `[0,0,0]`, `tc = 1` and
`shift = 1`, the code yields `0` at row 2 while the claimed formula
`signal[t-1]*returns[t] - |signal[t-1] - signal[t-2]|*tc` yields
`1*0 - |1-0|*1 = -1`. -/
theorem signal_tc_spec_counterexample :
    (calculate_signal_returns_with_tc [some 0, some 1, some 1]
      [some 0, some 0, some 0] 1 1)[2]? = some (some 0) ∧
    (0 : ℚ) ≠ 1 * 0 - |1 - 0| * 1 := by
  constructor
  · norm_num [calculate_signal_returns_with_tc, calculate_signal_tc, scaleCol,
      absCol, map2, cellOp, shiftCol]
  · norm_num

/-- C2 (amended): for every aligned signal and returns column, every
`shift ≥ 1` and cost rate `tc`, the strategy-return operation with
transaction costs satisfies
`result[t] = signal[t-shift] * returns[t] - |signal[t-shift] - signal[t]| * tc`
at every row `t ≥ shift` where the cells involved are defined. -/
theorem signal_returns_with_tc_formula (s r : Column) (tc : ℚ) (k t : ℕ)
    (a b c : ℚ) (_hk : 1 ≤ k) (hkt : k ≤ t)
    (ha : s[t - k]? = some (some a)) (hb : s[t]? = some (some b))
    (hc : r[t]? = some (some c)) :
    (calculate_signal_returns_with_tc s r tc k)[t]? =
      some (some (a * c - |a - b| * tc)) := by
  have hts : t < s.length := getElem?_some_lt_length hb
  have hnk : ¬ t < k := Nat.not_lt.mpr hkt
  rw [calculate_signal_returns_with_tc, calculate_signal_tc, map2_getElem?,
    map2_getElem?, shiftCol_getElem?, scaleCol_getElem?, absCol_getElem?,
    map2_getElem?, shiftCol_getElem?]
  simp [hts, hnk, ha, hb, hc, cellOp]

theorem signal_returns_with_tc_formula_witness :
    (1 ≤ 1 ∧ 1 ≤ 2) ∧
    (calculate_signal_returns_with_tc [some 0, some 1, some 1]
      [some 0, some 0, some 0] 1 1)[2]? = some (some (1 * 0 - |1 - 1| * 1)) :=
  ⟨⟨le_rfl, by omega⟩,
    signal_returns_with_tc_formula [some 0, some 1, some 1]
      [some 0, some 0, some 0] 1 1 2 1 1 0 le_rfl (by omega)
      (by decide) (by decide) (by decide)⟩

/-- C3 counterexample: on signal `[0,1,1,1,0,-1]` and returns
`[0,0.01,0.02,-0.01,0,0.03]` with `tc = 0`, `shift = 1`, the code's strategy
returns are not the claimed `[NaN,0,0.01,0.02,-0.01,0]` and the trade count
is not the claimed 2. -/
theorem concrete_scenario_counterexample :
    calculate_signal_returns
        [some 0, some 1, some 1, some 1, some 0, some (-1)]
        [some 0, some (1/100), some (2/100), some (-1/100), some 0, some (3/100)] 1 ≠
      [none, some 0, some (1/100), some (2/100), some (-1/100), some 0] ∧
    calculate_trade_no [some 0, some 1, some 1, some 1, some 0, some (-1)] ≠ 2 := by
  constructor
  · intro h
    have := congrArg (fun l => l[2]?) h
    simp [calculate_signal_returns, map2, shiftCol, cellOp] at this
    norm_num at this
  · have h3 : calculate_trade_no [some 0, some 1, some 1, some 1, some 0, some (-1)] = 3 := by
      norm_num [calculate_trade_no, absCol, map2, cellOp, shiftNegOne,
        List.countP_cons]
    simp [h3]

/-- C3 (amended): on signal `[0,1,1,1,0,-1]` and returns
`[0,0.01,0.02,-0.01,0,0.03]` with `tc = 0`, `shift = 1`, the strategy-return
operation returns `[NaN,0,0.02,-0.01,0,0]` and the trade-count operation
returns 3. -/
theorem concrete_scenario_values :
    calculate_signal_returns
        [some 0, some 1, some 1, some 1, some 0, some (-1)]
        [some 0, some (1/100), some (2/100), some (-1/100), some 0, some (3/100)] 1 =
      [none, some 0, some (1/50), some (-1/100), some 0, some 0] ∧
    calculate_trade_no [some 0, some 1, some 1, some 1, some 0, some (-1)] = 3 := by
  constructor
  · norm_num [calculate_signal_returns, map2, cellOp, shiftCol]
  · norm_num [calculate_trade_no, absCol, map2, cellOp, shiftNegOne,
      List.countP_cons]

/-- C8: changing signal cells strictly after row `T` never changes any
strategy return (with or without transaction costs) at rows `t ≤ T`, for any
`shift ≥ 1`, on signal columns of equal length. -/
theorem no_look_ahead (s₁ s₂ r : Column) (k T : ℕ) (_hk : 1 ≤ k)
    (hlen : s₁.length = s₂.length)
    (hagree : ∀ u, u ≤ T → s₁[u]? = s₂[u]?) :
    ∀ t, t ≤ T →
      (calculate_signal_returns s₁ r k)[t]? = (calculate_signal_returns s₂ r k)[t]? ∧
      ∀ tc, (calculate_signal_returns_with_tc s₁ r tc k)[t]? =
        (calculate_signal_returns_with_tc s₂ r tc k)[t]? := by
  intro t ht
  have h1 : s₁[t]? = s₂[t]? := hagree t ht
  have h2 : s₁[t - k]? = s₂[t - k]? := hagree _ (le_trans (Nat.sub_le t k) ht)
  have hsh : (shiftCol k s₁)[t]? = (shiftCol k s₂)[t]? := by
    rw [shiftCol_getElem?, shiftCol_getElem?, hlen, h2]
  constructor
  · rw [calculate_signal_returns, calculate_signal_returns,
      map2_getElem?, map2_getElem?, hsh]
  · intro tc
    rw [calculate_signal_returns_with_tc, calculate_signal_returns_with_tc,
      calculate_signal_tc, calculate_signal_tc, map2_getElem?, map2_getElem?,
      map2_getElem?, map2_getElem?, hsh, scaleCol_getElem?, scaleCol_getElem?,
      absCol_getElem?, absCol_getElem?, map2_getElem?, map2_getElem?, hsh, h1]

theorem no_look_ahead_witness :
    (1 ≤ 1 ∧ (∀ u, u ≤ 1 → ([some 0, some 1, some 5] : Column)[u]? =
      ([some 0, some 1, some 7] : Column)[u]?)) ∧
    (calculate_signal_returns [some 0, some 1, some 5] [some 1, some 1, some 1] 1)[1]? =
      (calculate_signal_returns [some 0, some 1, some 7] [some 1, some 1, some 1] 1)[1]? ∧
    (calculate_signal_returns_with_tc [some 0, some 1, some 5]
        [some 1, some 1, some 1] 2 1)[1]? =
      (calculate_signal_returns_with_tc [some 0, some 1, some 7]
        [some 1, some 1, some 1] 2 1)[1]? :=
  ⟨⟨le_rfl, by decide⟩,
    (no_look_ahead [some 0, some 1, some 5] [some 0, some 1, some 7]
      [some 1, some 1, some 1] 1 1 le_rfl (by decide) (by decide) 1 le_rfl).1,
    (no_look_ahead [some 0, some 1, some 5] [some 0, some 1, some 7]
      [some 1, some 1, some 1] 1 1 le_rfl (by decide) (by decide) 1 le_rfl).2 2⟩

theorem nonnegCol_absCol (xs : Column) : nonnegCol (absCol xs) := by
  intro q hq
  simp only [absCol, List.mem_map] at hq
  obtain ⟨o, _, ho⟩ := hq
  cases o with
  | none => simp at ho
  | some v =>
    simp only [Option.map_some'] at ho
    rw [← Option.some.injEq] at ho
    simp at ho
    rw [← ho]
    exact abs_nonneg v

theorem cumsumFrom_ge :
    ∀ (xs : Column) (acc : ℚ), nonnegCol xs →
      ∀ (t : ℕ) (a : ℚ), (cumsumFrom acc xs)[t]? = some (some a) → acc ≤ a := by
  intro xs
  induction xs with
  | nil => intro acc _ t a ha; simp [cumsumFrom] at ha
  | cons x rest ih =>
    intro acc h t a ha
    have hrest : nonnegCol rest := fun q hq => h q (List.mem_cons_of_mem _ hq)
    cases x with
    | none =>
      cases t with
      | zero => simp [cumsumFrom] at ha
      | succ n =>
        simp only [cumsumFrom, List.getElem?_cons_succ] at ha
        exact ih acc hrest n a ha
    | some v =>
      have hv : 0 ≤ v := h v (List.mem_cons_self _ _)
      cases t with
      | zero =>
        simp [cumsumFrom] at ha
        linarith
      | succ n =>
        simp only [cumsumFrom, List.getElem?_cons_succ] at ha
        have := ih (acc + v) hrest n a ha
        linarith

theorem cumsumFrom_mono :
    ∀ (xs : Column) (acc : ℚ), nonnegCol xs →
      ∀ (i j : ℕ) (a b : ℚ), i ≤ j → (cumsumFrom acc xs)[i]? = some (some a) →
        (cumsumFrom acc xs)[j]? = some (some b) → a ≤ b := by
  intro xs
  induction xs with
  | nil => intro acc _ i j a b _ ha _; simp [cumsumFrom] at ha
  | cons x rest ih =>
    intro acc h i j a b hij ha hb
    have hrest : nonnegCol rest := fun q hq => h q (List.mem_cons_of_mem _ hq)
    cases x with
    | none =>
      cases i with
      | zero => simp [cumsumFrom] at ha
      | succ i' =>
        cases j with
        | zero => omega
        | succ j' =>
          simp only [cumsumFrom, List.getElem?_cons_succ] at ha hb
          exact ih acc hrest i' j' a b (by omega) ha hb
    | some v =>
      cases i with
      | zero =>
        simp only [cumsumFrom, List.getElem?_cons_zero, Option.some.injEq] at ha
        cases j with
        | zero =>
          simp only [cumsumFrom, List.getElem?_cons_zero, Option.some.injEq] at hb
          linarith
        | succ j' =>
          simp only [cumsumFrom, List.getElem?_cons_succ] at hb
          have := cumsumFrom_ge rest (acc + v) hrest j' b hb
          have ha' : a = acc + v := by simp_all
          linarith
      | succ i' =>
        cases j with
        | zero => omega
        | succ j' =>
          simp only [cumsumFrom, List.getElem?_cons_succ] at ha hb
          exact ih (acc + v) hrest i' j' a b (by omega) ha hb

theorem cumsumFrom_getElem?_of_some :
    ∀ (xs : Column) (acc : ℚ) (t : ℕ) (d : ℚ),
      xs[t]? = some (some d) →
      (cumsumFrom acc xs)[t]? = some (some (acc + sumDef (xs.take t) + d)) := by
  intro xs
  induction xs with
  | nil => intro acc t d h; simp at h
  | cons x rest ih =>
    intro acc t d h
    cases x with
    | none =>
      cases t with
      | zero => simp at h
      | succ n =>
        simp only [List.getElem?_cons_succ] at h
        simp only [cumsumFrom, List.getElem?_cons_succ, List.take_succ_cons, sumDef]
        exact ih acc n d h
    | some v =>
      cases t with
      | zero =>
        simp only [List.getElem?_cons_zero, Option.some.injEq] at h
        rw [← h]
        simp [cumsumFrom, sumDef]
      | succ n =>
        simp only [List.getElem?_cons_succ] at h
        simp only [cumsumFrom, List.getElem?_cons_succ, List.take_succ_cons, sumDef]
        rw [ih (acc + v) n d h]
        simp only [Option.some.injEq]
        ring

/-- C4 counterexample: for signal `[0,1,-1,-1]`, row 3 is a true reset point
(the absolute signal change `|signal[2] - signal[1]| = 2` is nonzero), yet the
segment id jumps from 1 to 3 — an increase of 2, not exactly 1 (the code
cumulatively sums the absolute changes themselves, not 0/1 indicators). -/
theorem segment_step_counterexample :
    (resetPoints [some 0, some 1, some (-1), some (-1)])[3]? = some (some 2) ∧
    (2 : ℚ) ≠ 0 ∧
    (segmentIds [some 0, some 1, some (-1), some (-1)])[2]? = some (some 1) ∧
    (segmentIds [some 0, some 1, some (-1), some (-1)])[3]? = some (some 3) ∧
    (3 : ℚ) ≠ 1 + 1 := by
  refine ⟨?_, by norm_num, ?_, ?_, by norm_num⟩ <;>
    norm_num [segmentIds, cumsumCol, cumsumFrom, resetPoints, absCol, map2,
      cellOp, shiftCol]

/-- C4 (amended): segment ids are non-decreasing along time in every column,
and at each true reset point `t` the id equals the running sum of the defined
reset-point values before `t` plus the absolute signal change
`|signal[t-1] - signal[t-2]|` at `t` — i.e. the id increases by exactly that
absolute change (which is 1 only for unit-sized signal changes). -/
theorem segment_ids_monotone_step (s : Column) :
    (∀ (i j : ℕ) (a b : ℚ), i ≤ j → (segmentIds s)[i]? = some (some a) →
      (segmentIds s)[j]? = some (some b) → a ≤ b) ∧
    (∀ (t : ℕ) (d : ℚ), (resetPoints s)[t]? = some (some d) →
      (segmentIds s)[t]? = some (some (sumDef ((resetPoints s).take t) + d))) := by
  have hn : nonnegCol (resetPoints s) := by
    rw [resetPoints]; exact nonnegCol_absCol _
  constructor
  · intro i j a b hij ha hb
    simp only [segmentIds, cumsumCol] at ha hb
    exact cumsumFrom_mono (resetPoints s) 0 hn i j a b hij ha hb
  · intro t d h
    have := cumsumFrom_getElem?_of_some (resetPoints s) 0 t d h
    simpa [segmentIds, cumsumCol] using this

theorem segment_ids_monotone_step_witness :
    ((1 : ℚ) ≤ 3) ∧
    (segmentIds [some 0, some 1, some (-1), some (-1)])[3]? =
      some (some (sumDef ((resetPoints [some 0, some 1, some (-1), some (-1)]).take 3) + 2)) :=
  ⟨(segment_ids_monotone_step [some 0, some 1, some (-1), some (-1)]).1 2 3 1 3
      (by omega)
      (by norm_num [segmentIds, cumsumCol, cumsumFrom, resetPoints, absCol,
        map2, cellOp, shiftCol])
      (by norm_num [segmentIds, cumsumCol, cumsumFrom, resetPoints, absCol,
        map2, cellOp, shiftCol]),
   (segment_ids_monotone_step [some 0, some 1, some (-1), some (-1)]).2 3 2
      (by norm_num [resetPoints, absCol, map2, cellOp, shiftCol])⟩

/-- C5 (code bug): `calculate_cum_rets_trades` reads
`strategy_returns_data_frame.columnsii`, a nonexistent DataFrame attribute
(typo for `.columns`), so it raises `AttributeError` on every ordinary input
instead of returning the per-segment cumulative returns its docstring
promises. -/
theorem cum_rets_trades_always_raises (s r : Column) :
    calculate_cum_rets_trades s r = Except.error "AttributeError: columnsii" := rfl

theorem cumprodFrom_getElem?_of_some :
    ∀ (xs : Column) (acc : ℚ) (t : ℕ) (d : ℚ),
      xs[t]? = some (some d) →
      (cumprodFrom acc xs)[t]? = some (some (acc * prodDef (xs.take t) * d)) := by
  intro xs
  induction xs with
  | nil => intro acc t d h; simp at h
  | cons x rest ih =>
    intro acc t d h
    cases x with
    | none =>
      cases t with
      | zero => simp at h
      | succ n =>
        simp only [List.getElem?_cons_succ] at h
        simp only [cumprodFrom, List.getElem?_cons_succ, List.take_succ_cons, prodDef]
        exact ih acc n d h
    | some v =>
      cases t with
      | zero =>
        simp only [List.getElem?_cons_zero, Option.some.injEq] at h
        rw [← h]
        simp [cumprodFrom, prodDef]
      | succ n =>
        simp only [List.getElem?_cons_succ] at h
        simp only [cumprodFrom, List.getElem?_cons_succ, List.take_succ_cons, prodDef]
        rw [ih (acc * v) n d h]
        simp only [Option.some.injEq]
        ring

theorem firstValidIdx_cumprodFrom :
    ∀ (xs : Column) (acc : ℚ), firstValidIdx (cumprodFrom acc xs) = firstValidIdx xs := by
  intro xs
  induction xs with
  | nil => intro acc; rfl
  | cons x rest ih =>
    intro acc
    cases x with
    | none => simp [cumprodFrom, firstValidIdx, ih]
    | some v => simp [cumprodFrom, firstValidIdx]

theorem firstValidIdx_map (g : ℚ → ℚ) :
    ∀ xs : Column, firstValidIdx (xs.map (Option.map g)) = firstValidIdx xs := by
  intro xs
  induction xs with
  | nil => rfl
  | cons x rest ih =>
    cases x with
    | none => simp [firstValidIdx, ih]
    | some v => simp [firstValidIdx]

theorem setFirstValid100_getElem?_self :
    ∀ (xs : Column) (i : ℕ), firstValidIdx xs = some i →
      (setFirstValid100 xs)[i]? = some (some 100) := by
  intro xs
  induction xs with
  | nil => intro i h; simp [firstValidIdx] at h
  | cons x rest ih =>
    intro i h
    cases x with
    | none =>
      simp only [firstValidIdx, Option.map_eq_some'] at h
      obtain ⟨i', hi', hii⟩ := h
      rw [← hii]
      simp only [setFirstValid100, List.getElem?_cons_succ]
      exact ih i' hi'
    | some v =>
      simp only [firstValidIdx, Option.some.injEq] at h
      rw [← h]
      simp [setFirstValid100]

theorem setFirstValid100_getElem?_ne :
    ∀ (xs : Column) (i : ℕ), firstValidIdx xs = some i →
      ∀ t : ℕ, t ≠ i → (setFirstValid100 xs)[t]? = xs[t]? := by
  intro xs
  induction xs with
  | nil => intro i h; simp [firstValidIdx] at h
  | cons x rest ih =>
    intro i h t ht
    cases x with
    | none =>
      simp only [firstValidIdx, Option.map_eq_some'] at h
      obtain ⟨i', hi', hii⟩ := h
      cases t with
      | zero => simp [setFirstValid100]
      | succ t' =>
        simp only [setFirstValid100, List.getElem?_cons_succ]
        exact ih i' hi' t' (by omega)
    | some v =>
      simp only [firstValidIdx, Option.some.injEq] at h
      cases t with
      | zero => omega
      | succ t' => simp [setFirstValid100]

theorem prodDef_take_succ :
    ∀ (xs : Column) (t : ℕ) (d : ℚ), xs[t]? = some (some d) →
      prodDef (xs.take (t + 1)) = prodDef (xs.take t) * d := by
  intro xs
  induction xs with
  | nil => intro t d h; simp at h
  | cons x rest ih =>
    intro t d h
    cases t with
    | zero =>
      simp only [List.getElem?_cons_zero, Option.some.injEq] at h
      subst h
      simp [prodDef]
    | succ n =>
      simp only [List.getElem?_cons_succ] at h
      cases x with
      | none =>
        simp only [List.take_succ_cons, prodDef]
        exact ih n d h
      | some v =>
        simp only [List.take_succ_cons, prodDef]
        rw [ih n d h]
        ring

/-- C6 counterexample: for returns `[1, -1/2]` the multiplicative index is
`[100, 100]`: row 1 is not the first non-missing row, its value is 100, and
the returns are not identically zero. -/
theorem mult_index_hundred_counterexample :
    firstValidIdx [some 1, some (-(1:ℚ)/2)] = some 0 ∧
    (create_mult_index [some 1, some (-(1:ℚ)/2)])[1]? = some (some 100) ∧
    (1 : ℕ) ≠ 0 ∧
    ([some 1, some (-(1:ℚ)/2)] : Column)[0]? = some (some 1) ∧
    (1 : ℚ) ≠ 0 := by
  refine ⟨rfl, ?_, by omega, rfl, by norm_num⟩
  norm_num [create_mult_index, cumprodFrom, setFirstValid100]

/-- C6 (amended): the compounding index is exactly 100 at each column's first
non-missing row; at any other row with defined returns it equals 100 exactly
when the running product of `(1 + returns)` through that row equals 1 (which
holds in particular, but not only, when the returns are identically zero). -/
theorem mult_index_base (r : Column) (i : ℕ) (hi : firstValidIdx r = some i) :
    (create_mult_index r)[i]? = some (some 100) ∧
    ∀ (t : ℕ) (x : ℚ), r[t]? = some (some x) → t ≠ i →
      ((create_mult_index r)[t]? = some (some 100) ↔
        prodDef ((r.map (Option.map (fun q => 1 + q))).take (t + 1)) = 1) := by
  have hfv_ys : firstValidIdx (r.map (Option.map (fun q => 1 + q))) = some i := by
    rw [firstValidIdx_map]; exact hi
  have hfv_cum :
      firstValidIdx (cumprodFrom 1 (r.map (Option.map (fun q => 1 + q)))) = some i := by
    rw [firstValidIdx_cumprodFrom]; exact hfv_ys
  have hfv_zs :
      firstValidIdx ((cumprodFrom 1 (r.map (Option.map (fun q => 1 + q)))).map
        (Option.map (fun q => 100 * q))) = some i := by
    rw [firstValidIdx_map]; exact hfv_cum
  constructor
  · rw [create_mult_index]
    exact setFirstValid100_getElem?_self _ i hfv_zs
  · intro t x hx ht
    have hys_t : (r.map (Option.map (fun q => 1 + q)))[t]? = some (some (1 + x)) := by
      rw [List.getElem?_map, hx]; rfl
    have hcum := cumprodFrom_getElem?_of_some _ 1 t (1 + x) hys_t
    have hprod := prodDef_take_succ _ t (1 + x) hys_t
    rw [create_mult_index, setFirstValid100_getElem?_ne _ i hfv_zs t ht,
      List.getElem?_map, hcum]
    simp only [Option.map_some', Option.some.injEq]
    rw [hprod]
    constructor
    · intro h; linarith
    · intro h; linarith

theorem mult_index_base_witness :
    (create_mult_index [some 1, some (-(1:ℚ)/2)])[0]? = some (some 100) ∧
    ((create_mult_index [some 1, some (-(1:ℚ)/2)])[1]? = some (some 100) ↔
      prodDef ((([some 1, some (-(1:ℚ)/2)] : Column).map
        (Option.map (fun q => 1 + q))).take 2) = 1) :=
  ⟨(mult_index_base [some 1, some (-(1:ℚ)/2)] 0 rfl).1,
   (mult_index_base [some 1, some (-(1:ℚ)/2)] 0 rfl).2 1 (-(1:ℚ)/2) rfl (by omega)⟩

theorem cumsumFrom_length :
    ∀ (xs : Column) (acc : ℚ), (cumsumFrom acc xs).length = xs.length := by
  intro xs
  induction xs with
  | nil => intro acc; rfl
  | cons x rest ih =>
    intro acc
    cases x with
    | none => simp [cumsumFrom, ih]
    | some v => simp [cumsumFrom, ih]

theorem segmentIds_length (s : Column) : (segmentIds s).length = s.length := by
  simp [segmentIds, cumsumCol, cumsumFrom_length, resetPoints, absCol,
    map2_length, shiftCol_length]

theorem groupCumsumFrom_ones :
    ∀ (keys : Column) (acc : ℚ → ℚ) (m : ℕ), keys.length ≤ m →
      ∀ (t : ℕ) (k : ℚ), keys[t]? = some (some k) →
        (groupCumsumFrom acc keys (List.replicate m (some 1)))[t]? =
          some (some (acc k +
            (((keys.take t).countP fun o => decide (o = some k)) : ℕ) + 1)) := by
  intro keys
  induction keys with
  | nil => intro acc m _ t k h; simp at h
  | cons x ks ih =>
    intro acc m hm t k h
    cases m with
    | zero => simp at hm
    | succ m' =>
      have hm' : ks.length ≤ m' := by simp at hm; omega
      rw [List.replicate_succ]
      cases x with
      | none =>
        cases t with
        | zero => simp at h
        | succ t' =>
          simp only [List.getElem?_cons_succ] at h
          simp only [groupCumsumFrom, List.getElem?_cons_succ, List.take_succ_cons]
          rw [ih acc m' hm' t' k h]
          simp [List.countP_cons]
      | some j =>
        cases t with
        | zero =>
          simp only [List.getElem?_cons_zero, Option.some.injEq] at h
          subst h
          simp [groupCumsumFrom, List.countP_nil]
        | succ t' =>
          simp only [List.getElem?_cons_succ] at h
          simp only [groupCumsumFrom, List.getElem?_cons_succ, List.take_succ_cons]
          rw [ih _ m' hm' t' k h]
          by_cases hkj : k = j
          · subst hkj
            simp only [if_pos rfl, List.countP_cons, Option.some.injEq]
            norm_num
            ring
          · rw [if_neg hkj]
            simp only [List.countP_cons, Option.some.injEq]
            simp [Ne.symm hkj]

/-- C10: `calculate_trade_duration` returns no table at all (`None`, its body
is commented out) rather than the per-segment running count of elapsed
periods; `calculate_final_trade_duration` does produce that count: at every
row with a defined segment id it returns the number of rows up to and
including that row carrying the same id. -/
theorem trade_duration_none_final_counts (s : Column) :
    calculate_trade_duration s = none ∧
    ∀ (t : ℕ) (k : ℚ), (segmentIds s)[t]? = some (some k) →
      (calculate_final_trade_duration s)[t]? =
        some (some (((((segmentIds s).take (t + 1)).countP
          fun o => decide (o = some k)) : ℕ) : ℚ)) := by
  refine ⟨rfl, ?_⟩
  intro t k h
  have hlen : (segmentIds s).length ≤ s.length := le_of_eq (segmentIds_length s)
  have hmain := groupCumsumFrom_ones (segmentIds s) (fun _ => 0) s.length hlen t k h
  rw [calculate_final_trade_duration, groupCumsum, hmain]
  have hsucc : ((segmentIds s).take (t + 1)).countP (fun o => decide (o = some k)) =
      ((segmentIds s).take t).countP (fun o => decide (o = some k)) + 1 := by
    rw [List.take_succ, h]
    simp [List.countP_append]
  rw [hsucc]
  simp only [Option.some.injEq]
  push_cast
  ring

theorem trade_duration_none_final_counts_witness :
    (calculate_final_trade_duration [some 0, some 1, some 1])[2]? =
      some (some (((((segmentIds [some 0, some 1, some 1]).take 3).countP
        fun o => decide (o = some 1)) : ℕ) : ℚ)) :=
  (trade_duration_none_final_counts [some 0, some 1, some 1]).2 2 1
    (by norm_num [segmentIds, cumsumCol, cumsumFrom, resetPoints, absCol,
      map2, cellOp, shiftCol])

theorem stopInd_length (cum : Column) (sl tp : ℚ) :
    (stopInd cum sl tp).length = cum.length := by
  simp [stopInd]

theorem resetPointsNoShift_length (s : Column) :
    (resetPointsNoShift s).length = s.length := by
  simp [resetPointsNoShift, absCol, map2_length, shiftCol_length]

theorem maskSetVal_all_false (v : ℚ) :
    ∀ (xs : Column) (m : List Bool), (∀ b ∈ m, b = false) → xs.length ≤ m.length →
      maskSetVal v xs m = xs := by
  intro xs
  induction xs with
  | nil => intro m _ _; simp [maskSetVal]
  | cons x rest ih =>
    intro m hm hlen
    cases m with
    | nil => simp at hlen
    | cons b bs =>
      have hb : b = false := hm b (List.mem_cons_self _ _)
      subst hb
      simp only [maskSetVal, List.zipWith_cons_cons, Bool.false_eq_true, if_false]
      rw [show List.zipWith (fun x b => if b = true then some v else x) rest bs =
          maskSetVal v rest bs from rfl]
      rw [ih bs (fun c hc => hm c (List.mem_cons_of_mem _ hc))
        (by simp at hlen ⊢; omega)]

theorem map2_take_right (f : ℚ → ℚ → ℚ) :
    ∀ (xs ys : Column) (n : ℕ), xs.length ≤ n →
      map2 f xs (ys.take n) = map2 f xs ys := by
  intro xs
  induction xs with
  | nil => intro ys n _; cases ys.take n <;> cases ys <;> rfl
  | cons x rest ih =>
    intro ys n hn
    cases n with
    | zero => simp at hn
    | succ n' =>
      cases ys with
      | nil => simp
      | cons y ys' =>
        simp only [List.take_succ_cons, map2]
        rw [ih ys' n' (by simp at hn; omega)]

theorem resetPointsNoShift_cons (a : Option ℚ) (rest : Column) :
    resetPointsNoShift (a :: rest) =
      none :: absCol (map2 (· - ·) rest (a :: rest)) := by
  have h1 : shiftCol 1 (a :: rest) = none :: (a :: rest).take rest.length := by
    rw [shiftCol]
    simp [List.take_succ_cons]
  rw [resetPointsNoShift, h1]
  have h2 : map2 (· - ·) (a :: rest) (none :: (a :: rest).take rest.length) =
      cellOp (· - ·) a none :: map2 (· - ·) rest ((a :: rest).take rest.length) := rfl
  rw [h2, map2_take_right (· - ·) rest (a :: rest) rest.length (by simp)]
  have h3 : cellOp (· - ·) a none = none := by cases a <;> rfl
  rw [h3]
  simp [absCol]

theorem ffill_masked_tail :
    ∀ (rest : Column) (p : ℚ), noneFree rest →
      ffillFrom (some p)
        (maskNaNWhereZero rest (absCol (map2 (· - ·) rest (some p :: rest)))) = rest := by
  intro rest
  induction rest with
  | nil => intro p _; rfl
  | cons x rest ih =>
    intro p hnf
    obtain ⟨v, rfl⟩ : ∃ v, x = some v := by
      cases x with
      | none => exact absurd rfl (hnf none (List.mem_cons_self _ _))
      | some v => exact ⟨v, rfl⟩
    have hnf' : noneFree rest := fun y hy => hnf y (List.mem_cons_of_mem _ hy)
    have h2 : map2 (· - ·) (some v :: rest) (some p :: some v :: rest) =
        some (v - p) :: map2 (· - ·) rest (some v :: rest) := rfl
    rw [h2]
    simp only [absCol, List.map_cons, Option.map_some']
    rw [show maskNaNWhereZero (some v :: rest)
        (some |v - p| :: (map2 (· - ·) rest (some v :: rest)).map (Option.map fun q => |q|)) =
        (if |v - p| = 0 then none else some v) ::
          maskNaNWhereZero rest (absCol (map2 (· - ·) rest (some v :: rest))) from rfl]
    by_cases hvp : v = p
    · rw [if_pos (by rw [hvp]; simp)]
      show some p :: ffillFrom (some p)
        (maskNaNWhereZero rest (absCol (map2 (· - ·) rest (some v :: rest)))) = some v :: rest
      rw [hvp] at *
      rw [ih p hnf']
    · rw [if_neg (by simp [sub_eq_zero]; exact hvp)]
      show some v :: ffillFrom (some v)
        (maskNaNWhereZero rest (absCol (map2 (· - ·) rest (some v :: rest)))) = some v :: rest
      rw [ih v hnf']

/-- C7 counterexample: with signal `[1, NaN]` and cumulative trade returns
`[0, 0]`, thresholds `sl = -1`, `tp = 1`, no stop condition ever triggers,
yet the overlay forward-fills the missing cell and returns `[1, 1]`, not the
input signal. -/
theorem risk_stop_missing_counterexample :
    (∀ b ∈ stopInd [some 0, some 0] (-1) 1, b = false) ∧
    calculate_risk_stop_signals [some 1, none] [some 0, some 0] (-1) 1 ≠
      [some 1, none] := by
  constructor
  · decide
  · decide

/-- C7 (amended): for every signal table with no missing cells and every
aligned cumulative-trade-returns table on which no stop-loss or take-profit
condition ever evaluates true, the static risk-stop overlay returns the input
signal exactly. -/
theorem risk_stop_no_trigger_identity (s cum : Column) (sl tp : ℚ)
    (hnf : noneFree s) (hlen : cum.length = s.length)
    (hno : ∀ b ∈ stopInd cum sl tp, b = false) :
    calculate_risk_stop_signals s cum sl tp = s := by
  rw [calculate_risk_stop_signals]
  simp only [riskStopSignalAfter]
  rw [maskSetVal_all_false 0 s (stopInd cum sl tp) hno
      (by rw [stopInd_length, hlen]),
    maskSetVal_all_false 1 (resetPointsNoShift s) (stopInd cum sl tp) hno
      (by rw [stopInd_length, hlen, resetPointsNoShift_length])]
  cases s with
  | nil => rfl
  | cons a rest =>
    obtain ⟨v, rfl⟩ : ∃ v, a = some v := by
      cases a with
      | none => exact absurd rfl (hnf none (List.mem_cons_self _ _))
      | some v => exact ⟨v, rfl⟩
    have hnf' : noneFree rest := fun y hy => hnf y (List.mem_cons_of_mem _ hy)
    rw [resetPointsNoShift_cons]
    rw [show maskNaNWhereZero (some v :: rest)
        (none :: absCol (map2 (· - ·) rest (some v :: rest))) =
        some v :: maskNaNWhereZero rest (absCol (map2 (· - ·) rest (some v :: rest)))
      from rfl]
    rw [show ffillCol (some v :: maskNaNWhereZero rest
          (absCol (map2 (· - ·) rest (some v :: rest)))) =
        some v :: ffillFrom (some v) (maskNaNWhereZero rest
          (absCol (map2 (· - ·) rest (some v :: rest)))) from rfl]
    rw [ffill_masked_tail rest v hnf']

theorem risk_stop_no_trigger_identity_witness :
    (noneFree [some 1, some 1, some 0] ∧
      (∀ b ∈ stopInd [some 0, some 0, some 0] (-1) 1, b = false)) ∧
    calculate_risk_stop_signals [some 1, some 1, some 0]
      [some 0, some 0, some 0] (-1) 1 = [some 1, some 1, some 0] :=
  ⟨⟨by show ∀ x ∈ ([some 1, some 1, some 0] : Column), x ≠ none
       decide, by decide⟩,
    risk_stop_no_trigger_identity [some 1, some 1, some 0]
      [some 0, some 0, some 0] (-1) 1
      (by show ∀ x ∈ ([some 1, some 1, some 0] : Column), x ≠ none
          decide) rfl (by decide)⟩

theorem zipWith_getElem? {α β γ : Type} (f : α → β → γ) :
    ∀ (a : List α) (b : List β) (t : ℕ),
      (List.zipWith f a b)[t]? =
        match a[t]?, b[t]? with
        | some x, some y => some (f x y)
        | _, _ => none := by
  intro a
  induction a with
  | nil => intro b t; cases b <;> simp
  | cons x xs ih =>
    intro b t
    cases b with
    | nil => cases h : (x :: xs)[t]? <;> simp [h]
    | cons y ys =>
      cases t with
      | zero => simp
      | succ n => simpa using ih ys n

/-- C9 counterexample: `calculate_risk_stop_signals` writes through to its
input signal table: with signal `[NaN, 1]`, cumulative trade returns `[0, 2]`
and `take_profit = 1`, the stop triggers at row 1 and the masked assignments
`signal[ind] = 0` / `signal[reset_points == 0] = nan` leave the caller's
signal object as `[NaN, 0]`, not the `[NaN, 1]` that was passed in. -/
theorem risk_stop_mutates_input :
    riskStopSignalAfter [none, some 1] [some 0, some 2] (-1) 1 ≠
      [none, some 1] := by
  decide

/-- C9 (amended): not every core operation leaves its inputs intact: the
static risk-stop overlay mutates the caller's signal table in place.  After
the call, each cell of the input holds 0 where the stop condition fired,
the missing marker where the (updated) reset-point cell is zero, and its
original value elsewhere; the returned table is a fresh forward-filled copy. -/
theorem risk_stop_input_after_characterization (s cum : Column) (sl tp : ℚ)
    (t : ℕ) (x y : Option ℚ)
    (hx : s[t]? = some x) (hy : cum[t]? = some y) :
    (riskStopSignalAfter s cum sl tp)[t]? =
      some (if stopCell sl tp y then some 0
        else match Option.map (fun q => |q|)
            (cellOp (· - ·) x (if t = 0 then none else (s[t - 1]?).join)) with
          | some z => if z = 0 then none else x
          | none => x) := by
  have hts : t < s.length := getElem?_some_lt_length hx
  have hind : (stopInd cum sl tp)[t]? = some (stopCell sl tp y) := by
    rw [stopInd, List.getElem?_map, hy]; rfl
  have hshift : (shiftCol 1 s)[t]? = some (if t = 0 then none else (s[t - 1]?).join) := by
    rw [shiftCol_getElem?]
    cases t with
    | zero => simp [hts]
    | succ n =>
      have hn : n < s.length := by omega
      rw [if_pos hts, if_neg (by omega)]
      simp [List.getElem?_eq_getElem hn, Option.join]
  have hreset : (resetPointsNoShift s)[t]? =
      some (Option.map (fun q => |q|)
        (cellOp (· - ·) x (if t = 0 then none else (s[t - 1]?).join))) := by
    rw [resetPointsNoShift, absCol_getElem?, map2_getElem?, hx, hshift]
    rfl
  simp only [riskStopSignalAfter, maskSetVal, maskNaNWhereZero, zipWith_getElem?]
  rw [hx, hind, hreset]
  cases hb : stopCell sl tp y with
  | true => norm_num
  | false =>
    cases hM : Option.map (fun q => |q|)
        (cellOp (· - ·) x (if t = 0 then none else (s[t - 1]?).join)) with
    | none => simp
    | some z => simp

theorem risk_stop_input_after_characterization_witness :
    (riskStopSignalAfter [none, some 1] [some 0, some 2] (-1) 1)[1]? =
      some (some 0) :=
  (risk_stop_input_after_characterization [none, some 1] [some 0, some 2]
    (-1) 1 1 (some 1) (some 2) rfl rfl).trans (by decide)

end Findatapy
